import Mathlib

/-!
vault-env: environment sanitisation, lease watcher, signal relay, exit codes.

A shallow embedding of `src/main.go` (bank-vaults/vault-env).

Modelling conventions.
* Go `string` is Lean `String` (the byte strings the program handles are
  taken to be valid UTF-8).
* The Go map `sanitizeEnvmap` is an association list; lookup takes the first
  binding of a key and `delete` drops every binding of it, so the list
  behaves as a map whatever its shape.
* The slice `sanitizedEnviron.env` is a `List String`; the method `append`
  returns the updated receiver.
-/

namespace VaultEnv

/-! ## Data model (main.go 39-86) -/

/-- The marker value of `VAULT_TOKEN` that selects login mode (main.go 41). -/
def vaultLogin : String := "vault:login"

/-- Go `type sanitizedEnviron struct { env []string; login bool }`. -/
structure sanitizedEnviron where
  env : List String
  login : Bool
  deriving DecidableEq, Repr

/-- Go `type envType struct { login bool }`. -/
structure envType where
  login : Bool
  deriving DecidableEq, Repr

/-- A policy table: the Go type `map[string]envType`. -/
abbrev EnvMap := List (String × envType)

/-- Go `v, ok := m[name]`: `none` stands for `ok = false`. -/
def mapLookup (m : EnvMap) (name : String) : Option envType :=
  match m with
  | [] => none
  | (k, v) :: rest => if k = name then some v else mapLookup rest name

/-- Go `delete(m, name)`. -/
def mapDelete (m : EnvMap) (name : String) : EnvMap :=
  m.filter (fun kv => !decide (kv.1 = name))

/-- The initial value of the package variable `sanitizeEnvmap` (main.go 52-86). -/
def sanitizeEnvmap : EnvMap :=
  [ ("VAULT_TOKEN", ⟨true⟩),
    ("VAULT_ADDR", ⟨true⟩),
    ("VAULT_AGENT_ADDR", ⟨true⟩),
    ("VAULT_CACERT", ⟨true⟩),
    ("VAULT_CAPATH", ⟨true⟩),
    ("VAULT_CLIENT_CERT", ⟨true⟩),
    ("VAULT_CLIENT_KEY", ⟨true⟩),
    ("VAULT_CLIENT_TIMEOUT", ⟨true⟩),
    ("VAULT_SRV_LOOKUP", ⟨true⟩),
    ("VAULT_SKIP_VERIFY", ⟨true⟩),
    ("VAULT_NAMESPACE", ⟨true⟩),
    ("VAULT_TLS_SERVER_NAME", ⟨true⟩),
    ("VAULT_WRAP_TTL", ⟨true⟩),
    ("VAULT_MFA", ⟨true⟩),
    ("VAULT_MAX_RETRIES", ⟨true⟩),
    ("VAULT_CLUSTER_ADDR", ⟨false⟩),
    ("VAULT_REDIRECT_ADDR", ⟨false⟩),
    ("VAULT_CLI_NO_COLOR", ⟨false⟩),
    ("VAULT_RATE_LIMIT", ⟨false⟩),
    ("VAULT_ROLE", ⟨false⟩),
    ("VAULT_PATH", ⟨false⟩),
    ("VAULT_AUTH_METHOD", ⟨false⟩),
    ("VAULT_TRANSIT_KEY_ID", ⟨false⟩),
    ("VAULT_TRANSIT_PATH", ⟨false⟩),
    ("VAULT_TRANSIT_BATCH_SIZE", ⟨false⟩),
    ("VAULT_IGNORE_MISSING_SECRETS", ⟨false⟩),
    ("VAULT_ENV_PASSTHROUGH", ⟨false⟩),
    ("VAULT_JSON_LOG", ⟨false⟩),
    ("VAULT_LOG_LEVEL", ⟨false⟩),
    ("VAULT_REVOKE_TOKEN", ⟨false⟩),
    ("VAULT_ENV_DAEMON", ⟨false⟩),
    ("VAULT_ENV_FROM_PATH", ⟨false⟩),
    ("VAULT_ENV_DELAY", ⟨false⟩) ]

/-! ## sanitizedEnviron.append (main.go 88-94) -/

/-- Go `fmt.Sprintf("%s=%s", name, value)`. -/
def sprintfEntry (name value : String) : String :=
  name ++ "=" ++ value

/-- The guard of `append`: `!ok || (e.login && envType.login)`. -/
def appendGuard (table : EnvMap) (login : Bool) (name : String) : Bool :=
  match mapLookup table name with
  | none => true
  | some et => login && et.login

/-- The method `(e *sanitizedEnviron) append(name, value)`, reading the policy
table `table` (the current value of the global `sanitizeEnvmap`). -/
def sanitizedEnviron.append (table : EnvMap) (e : sanitizedEnviron)
    (name value : String) : sanitizedEnviron :=
  if appendGuard table e.login name then
    { e with env := e.env ++ [sprintfEntry name value] }
  else e

/-! ## Go string helpers used by main -/

/-- Go `unicode.IsSpace`: the white-space code points that `strings.TrimSpace`
strips. -/
def isSpace (c : Char) : Bool :=
  c = '\t' || c = '\n' || c.toNat = 0x0B || c.toNat = 0x0C || c = '\r' || c = ' ' ||
  c.toNat = 0x85 || c.toNat = 0xA0 || c.toNat = 0x1680 ||
  (0x2000 ≤ c.toNat && c.toNat ≤ 0x200A) ||
  c.toNat = 0x2028 || c.toNat = 0x2029 || c.toNat = 0x202F ||
  c.toNat = 0x205F || c.toNat = 0x3000

/-- Go `strings.TrimSpace`. -/
def TrimSpace (s : String) : String :=
  ⟨((s.data.dropWhile isSpace).reverse.dropWhile isSpace).reverse⟩

/-- Splitting a character list at every comma; always at least one piece. -/
def splitCommaChars : List Char → List (List Char)
  | [] => [[]]
  | c :: cs =>
    if c = ',' then [] :: splitCommaChars cs
    else
      match splitCommaChars cs with
      | [] => [[c]]
      | p :: ps => (c :: p) :: ps

/-- Go `strings.Split(s, ",")`. -/
def SplitComma (s : String) : List String :=
  (splitCommaChars s.data).map String.mk

/-! ## The allow-list removal loop (main.go 265-270) -/

/-- The loop `for _, envVar := range passthroughEnvVars` that deletes every
trimmed non-empty item from the policy table. -/
def passthroughLoop (table : EnvMap) : List String → EnvMap
  | [] => table
  | envVar :: rest =>
    let trimmed := TrimSpace envVar
    if trimmed ≠ "" then passthroughLoop (mapDelete table trimmed) rest
    else passthroughLoop table rest

/-- Whether the removal loop over `items` keeps the bindings of `name`: no
item trims to `name` (a closed form of `passthroughLoop`, see
`passthroughLoop_eq_filter`). -/
def keptBy (items : List String) (name : String) : Bool :=
  !(items.any (fun i => decide (TrimSpace i ≠ "") && decide (TrimSpace i = name)))

/-- The slice `passthroughEnvVars` that the loop ranges over (main.go 258-263):
the comma-separated items of `VAULT_ENV_PASSTHROUGH`, followed in login mode
by `VAULT_TOKEN`. -/
def passthroughEnvVars (isLogin : Bool) (passthrough : String) : List String :=
  if isLogin then SplitComma passthrough ++ ["VAULT_TOKEN"] else SplitComma passthrough

/-- The inject callback `func(key, value) { sanitized.append(key, value) }`
applied to a sequence of calls, in order (main.go 299-312). -/
def injectAll (table : EnvMap) (s : sanitizedEnviron) :
    List (String × String) → sanitizedEnviron
  | [] => s
  | (k, v) :: rest => injectAll table (s.append table k v) rest

/-! ## The process environment (Go `os.Environ`, `os.Getenv`, `os.Setenv`, `os.Unsetenv`)

The environment is the list returned by `os.Environ()`. The Go runtime
indexes an entry by the text before its first `=`; entries without `=` are
listed by `os.Environ()` but never found by `os.Getenv`. -/

/-- Whether the entry contains the separator `=`. -/
def hasEq (e : String) : Bool :=
  e.data.any (fun c => decide (c = '='))

/-- The name component of an entry: `strings.SplitN(env, "=", 2)[0]`. -/
def entryName (e : String) : String :=
  ⟨e.data.takeWhile (fun c => !decide (c = '='))⟩

/-- The text after the first `=` of an entry. -/
def entryValue (e : String) : String :=
  ⟨(e.data.dropWhile (fun c => !decide (c = '='))).drop 1⟩

/-- Go `strings.SplitN(env, "=", 2)`: one piece when there is no `=`. -/
def SplitN2 (e : String) : List String :=
  if hasEq e then [entryName e, entryValue e] else [e]

/-- Whether the runtime indexes entry `e` under `key`. -/
def isEntryOf (key : String) (e : String) : Bool :=
  hasEq e && decide (entryName e = key)

/-- Go `os.Getenv(key)`: the empty string when the variable is not set (and
for the empty key). -/
def Getenv (env : List String) (key : String) : String :=
  if key = "" then ""
  else
    match env.find? (isEntryOf key) with
    | some e => entryValue e
    | none => ""

/-- Go `os.Unsetenv(key)`: the entry indexed under `key` is dropped. -/
def Unsetenv (env : List String) (key : String) : List String :=
  env.eraseP (isEntryOf key)

/-- Go `os.Setenv(key, value)` for a key and a value it accepts (`main` passes
`VAULT_TOKEN` and `vault:login`): overwrite the entry in place, or add one at
the end. -/
def Setenv (env : List String) (key value : String) : List String :=
  match env with
  | [] => [sprintfEntry key value]
  | e :: rest =>
    if isEntryOf key e then sprintfEntry key value :: rest
    else e :: Setenv rest key value

/-- What the Go runtime guarantees of `os.Environ()` for a conventional
process environment: every entry has the form `name=value` and (duplicates
being cleared at start-up by `syscall.copyenv`) no name occurs twice. -/
def EnvWellFormed (env : List String) : Prop :=
  (∀ e ∈ env, hasEq e = true) ∧ (env.map entryName).Nodup

instance (env : List String) : Decidable (EnvWellFormed env) := by
  unfold EnvWellFormed; infer_instance

/-- The Go map `environ` of type `map[string]string`. -/
abbrev StrMap := List (String × String)

/-- Go `m[name] = value` on a `map[string]string`: last writer wins. -/
def mapSet (m : StrMap) (name value : String) : StrMap :=
  match m with
  | [] => [(name, value)]
  | (k, v) :: rest =>
    if k = name then (k, value) :: rest else (k, v) :: mapSet rest name value

/-- One iteration of the loop at main.go 292-297; `none` is the run-time
panic of `split[1]` on an entry without `=`. -/
def collectStep (m : StrMap) (e : String) : Option StrMap :=
  let split := SplitN2 e
  match split[0]?, split[1]? with
  | some name, some value => some (mapSet m name value)
  | _, _ => none

/-- The loop `for _, env := range os.Environ()` filling `environ`
(main.go 292-297). -/
def collectEnviron (env : List String) : Option StrMap :=
  env.foldlM collectStep []

/-! ## main (main.go 227-343, 391) -/

/-- The collaborators of `main` that live outside the repository. -/
structure World where
  /-- `len(os.Args) > 1` and `exec.LookPath` found the binary. -/
  commandFound : Bool
  /-- `os.ReadFile(tokenFile)`; `none` is an error. -/
  ReadFile : String → Option String
  /-- Whether `vault.NewClientWithOptions` succeeds. -/
  newClientOk : Bool
  /-- The calls `InjectSecretsFromVault(environ, inject)` makes to `inject`,
  in order; `none` is an error. The map is handed over as its list of
  bindings. -/
  InjectSecretsFromVault : StrMap → Option (List (String × String))
  /-- The calls `InjectSecretsFromVaultPath(paths, inject)` makes to
  `inject`; `none` is an error. -/
  InjectSecretsFromVaultPath : String → Option (List (String × String))

/-- How `main` stops before the child is launched. -/
inductive Abort where
  | exit (code : Int)
  | panic
  deriving DecidableEq, Repr

/-- Client creation, the allow-list loop, the collection of `environ` and the
two injections (main.go 251-317), run in the environment `env1` left by the
token handling. -/
def injectPhase (w : World) (isLogin : Bool) (env1 : List String) :
    Except Abort (sanitizedEnviron × List String) :=
  if !w.newClientOk then .error (.exit 1) else
  let passthrough := Getenv env1 "VAULT_ENV_PASSTHROUGH"
  let env2 := if isLogin then Setenv env1 "VAULT_TOKEN" vaultLogin else env1
  let table := passthroughLoop sanitizeEnvmap (passthroughEnvVars isLogin passthrough)
  let sanitized : sanitizedEnviron := { env := [], login := isLogin }
  match collectEnviron env2 with
  | none => .error .panic
  | some environ =>
    match w.InjectSecretsFromVault environ with
    | none => .error (.exit 1)
    | some calls =>
      let sanitized := injectAll table sanitized calls
      let paths := Getenv env2 "VAULT_ENV_FROM_PATH"
      if paths ≠ "" then
        match w.InjectSecretsFromVaultPath paths with
        | none => .error (.exit 1)
        | some pathCalls => .ok (injectAll table sanitized pathCalls, env2)
      else .ok (sanitized, env2)

/-- The part of `main` that builds the sanitized environment
(main.go 201-317). Returns the sanitized environment together with the
supervisor's own environment as left by `Unsetenv`/`Setenv`. -/
def mainSanitize (w : World) (env0 : List String) :
    Except Abort (sanitizedEnviron × List String) :=
  if !w.commandFound then .error (.exit 1) else
  let originalVaultTokenEnvVar := Getenv env0 "VAULT_TOKEN"
  let isLogin := decide (originalVaultTokenEnvVar = vaultLogin)
  let tokenFile := Getenv env0 "VAULT_TOKEN_FILE"
  if tokenFile ≠ "" then
    match w.ReadFile tokenFile with
    | some _ => injectPhase w isLogin env0
    | none => .error (.exit 1)
  else
    injectPhase w isLogin (if isLogin then Unsetenv env0 "VAULT_TOKEN" else env0)

/-- How `main` hands the environment to the child. -/
inductive Launch where
  /-- Daemon mode: `exec.Command` with `cmd.Env` (main.go 339-340). -/
  | daemon (cmdEnv : List String)
  /-- Otherwise: `syscall.Exec(binary, entrypointCmd, sanitized.env)`
  (main.go 391). -/
  | exec (envv : List String)
  deriving DecidableEq, Repr

/-- The environment of the child in daemon mode:
`cmd.Env = append(os.Environ(), sanitized.env...)` (main.go 340). -/
def daemonCmdEnv (environ : List String) (sanitized : sanitizedEnviron) : List String :=
  environ ++ sanitized.env

/-- The launch of the child (main.go 337-397); `daemonMode` is
`cast.ToBool(os.Getenv("VAULT_ENV_DAEMON"))`. -/
def mainLaunch (w : World) (daemonMode : Bool) (env0 : List String) :
    Except Abort Launch :=
  match mainSanitize w env0 with
  | .error a => .error a
  | .ok (sanitized, environ) =>
    if daemonMode then .ok (.daemon (daemonCmdEnv environ sanitized))
    else .ok (.exec sanitized.env)

/-- An injector that passes every collected variable unchanged and finds no
secret reference; every external step succeeds. -/
def plainWorld : World where
  commandFound := true
  ReadFile := fun _ => some ""
  newClientOk := true
  InjectSecretsFromVault := fun m => some m
  InjectSecretsFromVaultPath := fun _ => some []

/-! ## The lease watcher: daemonSecretRenewer.Renew (main.go 102-139)

Time is counted in nanoseconds, as by Go `time.Duration` (a signed 64-bit
integer). The goroutine is sequential; it is modelled by the list of actions
it performs for a given list of watch events. -/

/-- A signal number (`os.Signal`). -/
abbrev Signal := Nat

/-- Go `syscall.SIGTERM`. -/
def SIGTERM : Signal := 15

/-- Go `syscall.SIGKILL`. -/
def SIGKILL : Signal := 9

/-- Reduction of an integer to the signed 64-bit range (two's complement
wrap-around of Go integer arithmetic). -/
def wrapInt64 (x : Int) : Int :=
  (x + 2 ^ 63) % 2 ^ 64 - 2 ^ 63

/-- Go `time.Second`, in nanoseconds. -/
def Second : Int := 1000000000

/-- The fields of `vaultapi.Secret` read by the watcher; `LeaseDuration` is a
Go `int` (64 bits). -/
structure Secret where
  Renewable : Bool
  LeaseDuration : Int
  deriving DecidableEq, Repr

/-- The expression `time.Duration(secret.LeaseDuration) * time.Second`
(main.go 119). -/
def leaseDuration (secret : Secret) : Int :=
  wrapInt64 (wrapInt64 secret.LeaseDuration * Second)

/-- The expression `10 * time.Second` (main.go 129). -/
def killTimeout : Int :=
  wrapInt64 (10 * Second)

/-- What the watch stream delivers: a renewal (with the renewed secret's lease
duration) on `RenewCh`, or the end of the watch on `DoneCh`. -/
inductive WatchEvent where
  | renew (leaseDuration : Int)
  | done
  deriving DecidableEq, Repr

/-- The observable steps of the watcher goroutine. -/
inductive Action where
  /-- `r.logger.Info(...)`. -/
  | log (msg : String)
  /-- `time.Sleep(d)` or `<-time.After(d)`. -/
  | wait (d : Int)
  /-- `r.sigs <- sig`. -/
  | send (sig : Signal)
  deriving DecidableEq, Repr

/-- The body of the `DoneCh` case (main.go 117-133). -/
def doneCase (secret : Secret) : List Action :=
  (if !secret.Renewable then
      [Action.wait (leaseDuration secret), Action.log "secret lease has expired"]
    else []) ++
  [ Action.log "secret renewal has stopped, sending SIGTERM to process",
    Action.send SIGTERM,
    Action.wait killTimeout,
    Action.log "killing process due to SIGTERM timeout",
    Action.send SIGKILL ]

/-- The goroutine's `for { select { ... } }` loop over the events delivered
to it: the actions performed, and whether the goroutine has returned
(`false`: it is still blocked in `select`, watching). -/
def renewLoop (secret : Secret) : List WatchEvent → List Action × Bool
  | [] => ([], false)
  | WatchEvent.renew _ :: rest =>
    let r := renewLoop secret rest
    (Action.log "secret renewed" :: r.1, r.2)
  | WatchEvent.done :: _ => (doneCase secret, true)

/-- The time a wait takes at least: `time.Sleep` and `time.After` return at
once for a zero or negative duration. -/
def waitNanos (d : Int) : Nat := d.toNat

/-- The instants (in nanoseconds) at which the sends of an action list happen
when it starts at instant `t` and every wait lasts exactly as long as
requested. -/
def sendTimes (t : Nat) : List Action → List (Nat × Signal)
  | [] => []
  | Action.log _ :: rest => sendTimes t rest
  | Action.wait d :: rest => sendTimes (t + waitNanos d) rest
  | Action.send sig :: rest => (t, sig) :: sendTimes t rest

/-- The signals the watcher would put on the channel, with their instants,
when the done event is taken at instant `doneAt` and the goroutine is never
cut short. -/
def watcherSchedule (secret : Secret) (events : List WatchEvent) (doneAt : Nat) :
    List (Nat × Signal) :=
  sendTimes doneAt (renewLoop secret events).1

/-- Whether the supervisor process still runs at instant `t`: `main` calls
`os.Exit` as soon as `cmd.Wait()` has returned (main.go 372-389), which ends
every goroutine. `none`: the child never exits. -/
def supervisorRuns (childExitAt : Option Nat) (t : Nat) : Bool :=
  match childExitAt with
  | none => true
  | some te => decide (t < te)

/-- The signals the watcher really puts on the channel: the part of its
schedule that precedes the end of the supervisor process. -/
def watcherSends (secret : Secret) (events : List WatchEvent) (doneAt : Nat)
    (childExitAt : Option Nat) : List (Nat × Signal) :=
  (watcherSchedule secret events doneAt).takeWhile
    (fun p => supervisorRuns childExitAt p.1)

/-! ## The child's state and the signal relay (main.go 354-370) -/

/-- Go `os.ProcessState` of a finished process: it exited with a status, or
it was terminated by a signal. -/
inductive ProcessState where
  | exited (status : Nat)
  | signaled (sig : Signal)
  deriving DecidableEq, Repr

/-- Go `(*ProcessState).Exited()`: true only for a process that exited by
itself, false for one terminated by a signal. -/
def ProcessState.Exited : ProcessState → Bool
  | .exited _ => true
  | .signaled _ => false

/-- Go `(*ProcessState).ExitCode()` on a possibly nil receiver: the low eight
bits of the exit status, or -1 for a nil state or a process terminated by a
signal. -/
def ProcessState.ExitCode : Option ProcessState → Int
  | none => -1
  | some (.exited status) => ((status % 256 : Nat) : Int)
  | some (.signaled _) => -1

/-- The relay loop `for sig := range sigs`: each element is a signal taken
from the channel together with the value of `cmd.ProcessState` read in that
iteration (`none` is nil); the end of the list is the closing of the channel.
The result lists the signals passed to `cmd.Process.Signal`, in order (the
outcome of the call is only logged). -/
def relayLoop : List (Signal × Option ProcessState) → List Signal
  | [] => []
  | (sig, state) :: rest =>
    match state with
    | some ps => if ps.Exited then [] else sig :: relayLoop rest
    | none => sig :: relayLoop rest

/-! ## Exit-code propagation (main.go 372-389) -/

/-- Go errors as far as `errors.As(err, &exitError)` can tell them apart: an
`*exec.ExitError` (which embeds the child's `*os.ProcessState`), some other
error, or an error wrapping another. -/
inductive GoError where
  | exitError (state : Option ProcessState)
  | other (msg : String)
  | wrap (msg : String) (inner : GoError)
  deriving DecidableEq, Repr

/-- Go `errors.As(err, &exitError)` for a target of type `*exec.ExitError`:
the first exit error in the chain, if any. -/
def errorsAsExitError : GoError → Option (Option ProcessState)
  | .exitError state => some state
  | .other _ => none
  | .wrap _ inner => errorsAsExitError inner

/-- The argument `main` passes to `os.Exit` after `cmd.Wait()` returned `err`
(`none` is nil) with `cmd.ProcessState` equal to `state` (main.go 376-389). -/
def daemonExitCode (err : Option GoError) (state : Option ProcessState) : Int :=
  match err with
  | some e =>
    match errorsAsExitError e with
    | some exitState => ProcessState.ExitCode exitState
    | none => -1
  | none => ProcessState.ExitCode state

/-- How the child ended, or that waiting for it failed. -/
inductive ChildEnd where
  | exited (status : Nat)
  | signaled (sig : Signal)
  | waitFailed (msg : String)
  deriving DecidableEq, Repr

/-- The contract of Go `(*exec.Cmd).Wait` for a command whose standard
streams are files: the returned error and the resulting `cmd.ProcessState`.
The error is nil exactly for exit status 0; a child that exits with another
status or is terminated by a signal gives an `*exec.ExitError`. -/
def cmdWait : ChildEnd → Option GoError × Option ProcessState
  | .exited status =>
    if status % 256 = 0 then (none, some (.exited status))
    else (some (.exitError (some (.exited status))), some (.exited status))
  | .signaled sig => (some (.exitError (some (.signaled sig))), some (.signaled sig))
  | .waitFailed msg => (some (.other msg), none)

/-- Go `syscall.SIGCHLD` (Linux), which the supervisor receives when its child
ends. -/
def SIGCHLD : Signal := 17

/-- The exit status of a Go program that dies of an unrecovered panic. -/
def panicExitStatus : Int := 2

/-- The end of `main` in daemon mode, from the return of `cmd.Wait()` on
(main.go 372-389). `close(sigs)` at line 374 runs while `signal.Notify(sigs)`
(line 345, registered for every signal) is still in force, and `main` never
calls `signal.Stop`. `lateSignals` lists the signals that the `os/signal`
goroutine delivers after the close and before `os.Exit` ends the process: the
delivery of the first of them is a send on the closed channel, which panics,
and the process dies with the panic status instead of reaching `os.Exit`. -/
def daemonFinish (err : Option GoError) (state : Option ProcessState)
    (lateSignals : List Signal) : Int :=
  match lateSignals with
  | [] => daemonExitCode err state
  | _ :: _ => panicExitStatus

/-- The supervisor's exit status in daemon mode for a given end of the child
and given signals delivered after `close(sigs)`. -/
def supervisorExitCode (c : ChildEnd) (lateSignals : List Signal) : Int :=
  daemonFinish (cmdWait c).1 (cmdWait c).2 lateSignals

/-- A world in which the path-based injection delivers one secret whose key
is `VAULT_ADDR`; everything else as in `plainWorld`. -/
def pathSecretWorld : World where
  commandFound := true
  ReadFile := fun _ => some ""
  newClientOk := true
  InjectSecretsFromVault := fun m => some m
  InjectSecretsFromVaultPath := fun _ => some [("VAULT_ADDR", "https://other:8200")]

/-- The wait of the watcher between the done event and its SIGTERM: nothing
for a renewable secret, the lease sleep otherwise (main.go 118-123). -/
def termDelay (secret : Secret) : Nat :=
  if secret.Renewable then 0 else waitNanos (leaseDuration secret)

/-! ## Lemmas on the policy table -/

theorem mapLookup_filter_key (p : String → Bool) (m : EnvMap) (name : String) :
    mapLookup (m.filter (fun kv => p kv.1)) name =
      if p name then mapLookup m name else none := by
  induction m with
  | nil => simp [mapLookup]
  | cons kv rest ih =>
    obtain ⟨k, v⟩ := kv
    by_cases hk : k = name
    · subst hk
      by_cases hp : p k
      · simp [List.filter_cons, hp, mapLookup]
      · simp [List.filter_cons, hp, ih]
    · by_cases hp : p k
      · simp [List.filter_cons, hp, mapLookup, hk, ih]
      · simp [List.filter_cons, hp, mapLookup, hk, ih]

theorem passthroughLoop_eq_filter (items : List String) (table : EnvMap) :
    passthroughLoop table items = table.filter (fun kv => keptBy items kv.1) := by
  induction items generalizing table with
  | nil => simp [passthroughLoop, keptBy]
  | cons i rest ih =>
    by_cases hi : TrimSpace i = ""
    · simp only [passthroughLoop, hi, ne_eq, not_true_eq_false, if_false]
      rw [ih]
      apply List.filter_congr
      intro kv _
      simp [keptBy, hi]
    · simp only [passthroughLoop, ne_eq, hi, not_false_eq_true, if_true]
      rw [ih, mapDelete, List.filter_filter]
      apply List.filter_congr
      intro kv _
      simp only [keptBy, List.any_cons, ne_eq, hi, not_false_eq_true, decide_True,
        Bool.true_and, Bool.not_or]
      by_cases hk : kv.1 = TrimSpace i
      · simp [hk]
      · have hk2 : ¬ TrimSpace i = kv.1 := fun h => hk h.symm
        simp [hk, hk2]

theorem keptBy_false_of_mem (items : List String) (n : String)
    (hn : n ∈ items.map TrimSpace) (hne : n ≠ "") : keptBy items n = false := by
  obtain ⟨i, hi, rfl⟩ := List.mem_map.1 hn
  simp only [keptBy, Bool.not_eq_false_eq_eq_true, List.any_eq_true]
  exact ⟨i, hi, by simp [hne]⟩

theorem keptBy_congr (A B : List String) (h : ∀ x, x ∈ A ↔ x ∈ B) (n : String) :
    keptBy A n = keptBy B n := by
  have key : ∀ X Y : List String, (∀ x, x ∈ X → x ∈ Y) →
      keptBy Y n = true → keptBy X n = true := by
    intro X Y hXY hY
    simp only [keptBy, Bool.not_eq_true_eq_eq_false, List.any_eq_false] at hY ⊢
    intro x hx
    exact hY x (hXY x hx)
  cases hA : keptBy A n <;> cases hB : keptBy B n <;> try rfl
  · have := key A B (fun x hx => (h x).1 hx) hB
    rw [hA] at this; cases this
  · have := key B A (fun x hx => (h x).2 hx) hA
    rw [hB] at this; cases this

theorem appendGuard_congr (t1 t2 : EnvMap) (login : Bool) (name : String)
    (h : mapLookup t1 name = mapLookup t2 name) :
    appendGuard t1 login name = appendGuard t2 login name := by
  simp [appendGuard, h]

theorem append_ne_self (env : List String) (x : String) : env ++ [x] ≠ env := by
  intro h
  have := congrArg List.length h
  simp at this

/-! ## Lemmas on the accumulated environment -/

theorem injectAll_login (table : EnvMap) (calls : List (String × String))
    (s : sanitizedEnviron) : (injectAll table s calls).login = s.login := by
  induction calls generalizing s with
  | nil => rfl
  | cons c rest ih =>
    obtain ⟨k, v⟩ := c
    simp only [injectAll]
    rw [ih]
    unfold sanitizedEnviron.append
    split <;> rfl

theorem injectAll_env (table : EnvMap) (calls : List (String × String))
    (s : sanitizedEnviron) :
    (injectAll table s calls).env =
      s.env ++ (calls.filter (fun c => appendGuard table s.login c.1)).map
        (fun c => sprintfEntry c.1 c.2) := by
  induction calls generalizing s with
  | nil => simp [injectAll]
  | cons c rest ih =>
    obtain ⟨k, v⟩ := c
    simp only [injectAll]
    rw [ih]
    unfold sanitizedEnviron.append
    by_cases hg : appendGuard table s.login k = true
    · simp [hg, List.filter_cons]
    · simp [hg, List.filter_cons]

theorem injectAll_append (table : EnvMap) (s : sanitizedEnviron)
    (xs ys : List (String × String)) :
    injectAll table s (xs ++ ys) = injectAll table (injectAll table s xs) ys := by
  induction xs generalizing s with
  | nil => rfl
  | cons c rest ih =>
    obtain ⟨k, v⟩ := c
    show injectAll table (s.append table k v) (rest ++ ys) = _
    rw [ih]
    rfl

theorem takeWhile_append_sep (p : Char → Bool) (xs ys : List Char) (c : Char)
    (hc : p c = false) : (xs ++ c :: ys).takeWhile p = xs.takeWhile p := by
  induction xs with
  | nil => simp [List.takeWhile_cons, hc]
  | cons x rest ih =>
    by_cases hx : p x
    · simp [List.takeWhile_cons, hx, ih]
    · simp [List.takeWhile_cons, hx]

theorem sprintfEntry_data (name value : String) :
    (sprintfEntry name value).data = name.data ++ '=' :: value.data := by
  simp [sprintfEntry, String.data_append]

theorem entryName_sprintfEntry (name value : String) :
    entryName (sprintfEntry name value) = entryName name := by
  simp only [entryName, sprintfEntry_data]
  rw [takeWhile_append_sep]
  simp

theorem takeWhile_eq_self_of_not_any (xs : List Char)
    (h : xs.any (fun c => decide (c = '=')) = false) :
    xs.takeWhile (fun c => !decide (c = '=')) = xs := by
  induction xs with
  | nil => rfl
  | cons x rest ih =>
    simp only [List.any_cons, Bool.or_eq_false_iff] at h
    simp [List.takeWhile_cons, h.1, ih h.2]

theorem entryName_of_noEq (name : String) (h : hasEq name = false) :
    entryName name = name := by
  unfold entryName
  rw [takeWhile_eq_self_of_not_any _ h]

theorem count_named_entries (table : EnvMap) (login : Bool) (n : String)
    (calls : List (String × String)) (hkeys : ∀ c ∈ calls, hasEq c.1 = false) :
    ((((calls.filter (fun c => appendGuard table login c.1)).map
        (fun c => sprintfEntry c.1 c.2)).filter
          (fun e => decide (entryName e = n))).length) =
      if appendGuard table login n then
        (calls.filter (fun c => decide (c.1 = n))).length
      else 0 := by
  induction calls with
  | nil => simp
  | cons c rest ih =>
    have hrest : ∀ c ∈ rest, hasEq c.1 = false :=
      fun c hc => hkeys c (List.mem_cons_of_mem _ hc)
    have hc : entryName (sprintfEntry c.1 c.2) = c.1 := by
      rw [entryName_sprintfEntry, entryName_of_noEq _ (hkeys c (List.mem_cons_self _ _))]
    specialize ih hrest
    by_cases hg : appendGuard table login c.1 = true
    · by_cases hn : c.1 = n
      · subst hn
        simp only [List.filter_cons, hg, if_true, List.map_cons, hc, decide_True,
          List.length_cons, ih]
      · have hgn : (if appendGuard table login n = true then
            (List.filter (fun c => decide (c.1 = n)) rest).length else 0) =
            (if appendGuard table login n = true then
            (List.filter (fun c => decide (c.1 = n)) (c :: rest)).length else 0) := by
          simp [List.filter_cons, hn]
        rw [← hgn, ← ih]
        simp [List.filter_cons, hg, hc, hn]
    · by_cases hn : c.1 = n
      · subst hn
        simp only [hg] at ih ⊢
        simpa [List.filter_cons, hg] using ih
      · have hgn : (if appendGuard table login n = true then
            (List.filter (fun c => decide (c.1 = n)) rest).length else 0) =
            (if appendGuard table login n = true then
            (List.filter (fun c => decide (c.1 = n)) (c :: rest)).length else 0) := by
          simp [List.filter_cons, hn]
        rw [← hgn, ← ih]
        simp [List.filter_cons, hg]

/-! ## Claims on the classifier and the allow-list -/

/-- C1: for every policy table, name, value, login flag and prior list `env`,
`append(name, value)` yields `env` followed by the single entry `name=value`
if and only if the name has no entry in the table or login mode is active and
the entry has `login = true`; in every other case the receiver is returned
unchanged. -/
theorem append_classifier_decision (table : EnvMap) (name value : String)
    (login : Bool) (env : List String) :
    ((sanitizedEnviron.append table ⟨env, login⟩ name value).env
          = env ++ [name ++ "=" ++ value] ↔
        (mapLookup table name = none ∨
          (login = true ∧ mapLookup table name = some ⟨true⟩)))
    ∧ (sanitizedEnviron.append table ⟨env, login⟩ name value = ⟨env, login⟩ ↔
        ¬ (mapLookup table name = none ∨
          (login = true ∧ mapLookup table name = some ⟨true⟩))) := by
  have hne := append_ne_self env (name ++ "=" ++ value)
  unfold sanitizedEnviron.append appendGuard sprintfEntry
  cases hl : mapLookup table name with
  | none => simp [hne]
  | some et =>
    obtain ⟨b⟩ := et
    cases login <;> cases b <;> simp [hne]

/-- C3: every trimmed non-empty item `n` of the comma-separated value `L` of
`VAULT_ENV_PASSTHROUGH` has no rule left once the removal loop has run, so
`append(n, v)` adds the entry `n=v` in either mode, whatever rule `n` had. -/
theorem allowlist_forces_inclusion (table : EnvMap) (L n v : String) (login : Bool)
    (env : List String) (hn : n ∈ (SplitComma L).map TrimSpace) (hne : n ≠ "") :
    mapLookup (passthroughLoop table (passthroughEnvVars login L)) n = none ∧
    (sanitizedEnviron.append (passthroughLoop table (passthroughEnvVars login L))
        ⟨env, login⟩ n v).env = env ++ [n ++ "=" ++ v] := by
  have hmem : n ∈ (passthroughEnvVars login L).map TrimSpace := by
    unfold passthroughEnvVars
    cases login
    · simpa using hn
    · simp only [if_true, List.map_append, List.mem_append]
      exact Or.inl hn
  have hlook : mapLookup (passthroughLoop table (passthroughEnvVars login L)) n = none := by
    rw [passthroughLoop_eq_filter, mapLookup_filter_key (keptBy (passthroughEnvVars login L)),
      keptBy_false_of_mem _ _ hmem hne]
    simp
  refine ⟨hlook, ?_⟩
  simp [sanitizedEnviron.append, appendGuard, hlook, sprintfEntry]

/-- Witness of C3: outside login mode, with `VAULT_ENV_PASSTHROUGH=VAULT_ADDR`,
the login-only variable `VAULT_ADDR` gets its entry. -/
theorem allowlist_forces_inclusion_witness :
    ("VAULT_ADDR" ∈ (SplitComma "VAULT_ADDR").map TrimSpace ∧ "VAULT_ADDR" ≠ "") ∧
    mapLookup sanitizeEnvmap "VAULT_ADDR" = some ⟨true⟩ ∧
    (mapLookup (passthroughLoop sanitizeEnvmap (passthroughEnvVars false "VAULT_ADDR"))
        "VAULT_ADDR" = none ∧
      (sanitizedEnviron.append
          (passthroughLoop sanitizeEnvmap (passthroughEnvVars false "VAULT_ADDR"))
          ⟨[], false⟩ "VAULT_ADDR" "http://vault:8200").env
        = [] ++ ["VAULT_ADDR" ++ "=" ++ "http://vault:8200"]) :=
  ⟨⟨by decide, by decide⟩, by decide,
    allowlist_forces_inclusion sanitizeEnvmap "VAULT_ADDR" "VAULT_ADDR"
      "http://vault:8200" false [] (by decide) (by decide)⟩

/-- C9: the removal loop over `A` then `B` gives the same table as over `B`
then `A`; over `A` twice the same as once; and over any list `A2` with the
same items as `A` (a permutation or a duplication of them) the same as over
`A`; hence `append` decides every name alike. -/
theorem allowlist_idempotent_order_independent (table : EnvMap)
    (A B A2 : List String) (h : ∀ x, x ∈ A ↔ x ∈ A2) :
    passthroughLoop (passthroughLoop table A) B
        = passthroughLoop (passthroughLoop table B) A
    ∧ passthroughLoop (passthroughLoop table A) A = passthroughLoop table A
    ∧ passthroughLoop table A2 = passthroughLoop table A
    ∧ (∀ (s : sanitizedEnviron) (name value : String),
        s.append (passthroughLoop (passthroughLoop table A) B) name value
            = s.append (passthroughLoop (passthroughLoop table B) A) name value
        ∧ s.append (passthroughLoop (passthroughLoop table A) A) name value
            = s.append (passthroughLoop table A) name value
        ∧ s.append (passthroughLoop table A2) name value
            = s.append (passthroughLoop table A) name value) := by
  have h1 : passthroughLoop (passthroughLoop table A) B
      = passthroughLoop (passthroughLoop table B) A := by
    simp only [passthroughLoop_eq_filter, List.filter_filter]
    apply List.filter_congr
    intro kv _
    exact Bool.and_comm _ _
  have h2 : passthroughLoop (passthroughLoop table A) A = passthroughLoop table A := by
    simp only [passthroughLoop_eq_filter, List.filter_filter]
    apply List.filter_congr
    intro kv _
    exact Bool.and_self _
  have h3 : passthroughLoop table A2 = passthroughLoop table A := by
    simp only [passthroughLoop_eq_filter]
    apply List.filter_congr
    intro kv _
    exact (keptBy_congr A A2 h kv.1).symm
  refine ⟨h1, h2, h3, ?_⟩
  intro s name value
  rw [h1, h2, h3]
  exact ⟨rfl, rfl, rfl⟩

/-- Witness of C9 on the program's own table: `A2` permutes, re-spaces nothing
and duplicates the items of `A`. -/
theorem allowlist_idempotent_order_independent_witness :
    passthroughLoop (passthroughLoop sanitizeEnvmap ["VAULT_ADDR", " VAULT_ROLE "])
        ["VAULT_PATH", ""]
      = passthroughLoop (passthroughLoop sanitizeEnvmap ["VAULT_PATH", ""])
        ["VAULT_ADDR", " VAULT_ROLE "]
    ∧ passthroughLoop (passthroughLoop sanitizeEnvmap ["VAULT_ADDR", " VAULT_ROLE "])
        ["VAULT_ADDR", " VAULT_ROLE "]
      = passthroughLoop sanitizeEnvmap ["VAULT_ADDR", " VAULT_ROLE "]
    ∧ passthroughLoop sanitizeEnvmap [" VAULT_ROLE ", "VAULT_ADDR", " VAULT_ROLE "]
      = passthroughLoop sanitizeEnvmap ["VAULT_ADDR", " VAULT_ROLE "] :=
  have h := allowlist_idempotent_order_independent sanitizeEnvmap
    ["VAULT_ADDR", " VAULT_ROLE "] ["VAULT_PATH", ""]
    [" VAULT_ROLE ", "VAULT_ADDR", " VAULT_ROLE "]
    (by intro x; simp only [List.mem_cons, List.mem_singleton, List.not_mem_nil]; tauto)
  ⟨h.1, h.2.1, h.2.2.1⟩

/-! ## Lemmas on the process environment -/

theorem hasEq_sprintfEntry (name value : String) :
    hasEq (sprintfEntry name value) = true := by
  simp [hasEq, sprintfEntry_data]

theorem dropWhile_append_sep (xs ys : List Char)
    (h : xs.any (fun c => decide (c = '=')) = false) :
    (xs ++ '=' :: ys).dropWhile (fun c => !decide (c = '=')) = '=' :: ys := by
  induction xs with
  | nil => simp [List.dropWhile_cons]
  | cons x rest ih =>
    simp only [List.any_cons, Bool.or_eq_false_iff] at h
    simp [List.dropWhile_cons, h.1, ih h.2]

theorem entryValue_sprintfEntry (name value : String) (h : hasEq name = false) :
    entryValue (sprintfEntry name value) = value := by
  unfold entryValue
  rw [sprintfEntry_data, dropWhile_append_sep _ _ h]
  rfl

theorem hasEq_entryName (e : String) : hasEq (entryName e) = false := by
  unfold hasEq entryName
  generalize e.data = xs
  induction xs with
  | nil => rfl
  | cons x rest ih =>
    by_cases hx : x = '='
    · simp [List.takeWhile_cons, hx]
    · simp [List.takeWhile_cons, hx]
      simpa using ih

theorem find_isEntryOf_eraseP (env : List String) (k k2 : String) (hk : k ≠ k2) :
    (env.eraseP (isEntryOf k)).find? (isEntryOf k2) = env.find? (isEntryOf k2) := by
  induction env with
  | nil => rfl
  | cons e rest ih =>
    by_cases he : isEntryOf k e = true
    · have h2 : isEntryOf k2 e = false := by
        simp only [isEntryOf, Bool.and_eq_true, decide_eq_true_eq] at he
        simp only [isEntryOf, Bool.and_eq_false_iff, decide_eq_false_iff_not]
        exact Or.inr (fun h => hk (he.2.symm.trans h))
      simp [List.eraseP_cons, he, List.find?_cons, h2]
    · simp only [Bool.not_eq_true] at he
      simp [List.eraseP_cons, he, List.find?_cons, ih]

theorem Getenv_Unsetenv_ne (env : List String) (k k2 : String) (hk : k ≠ k2) :
    Getenv (Unsetenv env k) k2 = Getenv env k2 := by
  unfold Getenv Unsetenv
  rw [find_isEntryOf_eraseP env k k2 hk]

theorem EnvWellFormed_Unsetenv (env : List String) (k : String)
    (h : EnvWellFormed env) : EnvWellFormed (Unsetenv env k) := by
  refine ⟨fun e he => h.1 e (List.mem_of_mem_eraseP he), ?_⟩
  exact h.2.sublist ((List.eraseP_sublist env).map entryName)

theorem mem_Setenv (env : List String) (k v : String) :
    sprintfEntry k v ∈ Setenv env k v := by
  induction env with
  | nil => simp [Setenv]
  | cons e rest ih =>
    unfold Setenv
    split
    · exact List.mem_cons_self _ _
    · exact List.mem_cons_of_mem _ ih

theorem hasEq_of_mem_Setenv (env : List String) (k v : String)
    (h : ∀ e ∈ env, hasEq e = true) : ∀ e ∈ Setenv env k v, hasEq e = true := by
  induction env with
  | nil =>
    intro e he
    simp only [Setenv, List.mem_singleton] at he
    subst he
    exact hasEq_sprintfEntry k v
  | cons x rest ih =>
    intro e he
    unfold Setenv at he
    split at he
    · rcases List.mem_cons.1 he with rfl | hr
      · exact hasEq_sprintfEntry k v
      · exact h e (List.mem_cons_of_mem _ hr)
    · rcases List.mem_cons.1 he with rfl | hr
      · exact h e (List.mem_cons_self _ _)
      · exact ih (fun y hy => h y (List.mem_cons_of_mem _ hy)) e hr

theorem names_Setenv (env : List String) (k v : String) (hk : hasEq k = false) :
    (Setenv env k v).map entryName =
      if env.any (isEntryOf k) then env.map entryName
      else env.map entryName ++ [k] := by
  have hname : entryName (sprintfEntry k v) = k := by
    rw [entryName_sprintfEntry, entryName_of_noEq k hk]
  induction env with
  | nil => simp [Setenv, hname]
  | cons e rest ih =>
    unfold Setenv
    by_cases he : isEntryOf k e = true
    · have hn : entryName e = k := by
        simp only [isEntryOf, Bool.and_eq_true, decide_eq_true_eq] at he
        exact he.2
      simp [he, hname, hn]
    · simp only [Bool.not_eq_true] at he
      simp only [he, Bool.false_eq_true, if_false, List.map_cons, ih, List.any_cons,
        Bool.false_or]
      split <;> simp

theorem EnvWellFormed_Setenv (env : List String) (k v : String)
    (hk : hasEq k = false) (h : EnvWellFormed env) : EnvWellFormed (Setenv env k v) := by
  refine ⟨hasEq_of_mem_Setenv env k v h.1, ?_⟩
  rw [names_Setenv env k v hk]
  by_cases ha : env.any (isEntryOf k) = true
  · simpa [ha] using h.2
  · simp only [ha, Bool.false_eq_true, if_false]
    refine List.Nodup.append h.2 (List.nodup_singleton k) ?_
    simp only [List.disjoint_singleton, List.mem_map, not_exists, not_and]
    intro e he hn
    apply ha
    simp only [List.any_eq_true]
    exact ⟨e, he, by simp [isEntryOf, h.1 e he, hn]⟩

theorem mapSet_of_not_mem (m : StrMap) (k v : String) (h : k ∉ m.map Prod.fst) :
    mapSet m k v = m ++ [(k, v)] := by
  induction m with
  | nil => rfl
  | cons kv rest ih =>
    obtain ⟨a, b⟩ := kv
    simp only [List.map_cons, List.mem_cons, not_or] at h
    have hne : ¬ a = k := fun hh => h.1 hh.symm
    simp [mapSet, hne, ih h.2]

theorem collectStep_of_hasEq (m : StrMap) (e : String) (h : hasEq e = true) :
    collectStep m e = some (mapSet m (entryName e) (entryValue e)) := by
  simp [collectStep, SplitN2, h]

theorem foldlM_collectStep (env : List String) (m0 : StrMap)
    (heq : ∀ e ∈ env, hasEq e = true)
    (hnd : (env.map entryName).Nodup)
    (hdis : ∀ e ∈ env, entryName e ∉ m0.map Prod.fst) :
    env.foldlM collectStep m0 =
      some (m0 ++ env.map (fun e => (entryName e, entryValue e))) := by
  induction env generalizing m0 with
  | nil => simp
  | cons e rest ih =>
    have he := heq e (List.mem_cons_self _ _)
    simp only [List.map_cons, List.nodup_cons] at hnd
    rw [List.foldlM_cons, collectStep_of_hasEq m0 e he,
      mapSet_of_not_mem m0 _ _ (hdis e (List.mem_cons_self _ _))]
    simp only [Option.some_bind, Option.bind_eq_bind]
    rw [ih (m0 ++ [(entryName e, entryValue e)])
      (fun x hx => heq x (List.mem_cons_of_mem _ hx)) hnd.2]
    · simp
    · intro x hx
      simp only [List.map_append, List.map_cons, List.map_nil, List.mem_append,
        List.mem_singleton, not_or]
      refine ⟨hdis x (List.mem_cons_of_mem _ hx), ?_⟩
      intro hxe
      exact hnd.1 (hxe ▸ List.mem_map_of_mem entryName hx)

theorem collectEnviron_of_wellFormed (env : List String) (h : EnvWellFormed env) :
    collectEnviron env = some (env.map (fun e => (entryName e, entryValue e))) := by
  unfold collectEnviron
  rw [foldlM_collectStep env [] h.1 h.2 (by simp)]
  simp

/-! ## The login scenario -/

theorem mem_injectAll_env (table : EnvMap) (s : sanitizedEnviron)
    (calls : List (String × String)) (e : String) :
    e ∈ (injectAll table s calls).env ↔
      e ∈ s.env ∨ ∃ c ∈ calls, appendGuard table s.login c.1 = true ∧
        e = sprintfEntry c.1 c.2 := by
  rw [injectAll_env]
  simp only [List.mem_append, List.mem_map, List.mem_filter]
  constructor
  · rintro (h | ⟨c, ⟨hc, hg⟩, rfl⟩)
    · exact Or.inl h
    · exact Or.inr ⟨c, hc, hg, rfl⟩
  · rintro (h | ⟨c, hc, hg, rfl⟩)
    · exact Or.inl h
    · exact Or.inr ⟨c, ⟨hc, hg⟩, rfl⟩

theorem no_entry_named (table : EnvMap) (n : String) (s : sanitizedEnviron)
    (calls : List (String × String))
    (hex : appendGuard table s.login n = false)
    (hkeys : ∀ c ∈ calls, hasEq c.1 = false)
    (hs : ∀ e ∈ s.env, entryName e ≠ n) :
    ∀ e ∈ (injectAll table s calls).env, entryName e ≠ n := by
  intro e he
  rcases (mem_injectAll_env table s calls e).1 he with h | ⟨c, hc, hg, rfl⟩
  · exact hs e h
  · rw [entryName_sprintfEntry, entryName_of_noEq _ (hkeys c hc)]
    intro hcn
    rw [hcn, hex] at hg
    cases hg

theorem injectPhase_login (w : World) (env1 : List String)
    (hwf : EnvWellFormed env1)
    (hpass : Getenv env1 "VAULT_ENV_PASSTHROUGH" = "")
    (hclient : w.newClientOk = true)
    (hinj : ∀ m, ∃ calls, w.InjectSecretsFromVault m = some calls ∧ calls.Perm m)
    (hpath : ∀ p, ∃ calls, w.InjectSecretsFromVaultPath p = some calls ∧
      ∀ c ∈ calls, hasEq c.1 = false) :
    ∃ s environ, injectPhase w true env1 = .ok (s, environ) ∧
      "VAULT_TOKEN=vault:login" ∈ s.env ∧ ∀ e ∈ s.env, entryName e ≠ "VAULT_ROLE" := by
  have hwf2 : EnvWellFormed (Setenv env1 "VAULT_TOKEN" vaultLogin) :=
    EnvWellFormed_Setenv env1 _ _ (by decide) hwf
  have hcol := collectEnviron_of_wellFormed _ hwf2
  obtain ⟨calls, hcalls, hperm⟩ :=
    hinj ((Setenv env1 "VAULT_TOKEN" vaultLogin).map (fun e => (entryName e, entryValue e)))
  have htabTok : appendGuard (passthroughLoop sanitizeEnvmap (passthroughEnvVars true ""))
      true "VAULT_TOKEN" = true := by decide
  have htabRole : appendGuard (passthroughLoop sanitizeEnvmap (passthroughEnvVars true ""))
      true "VAULT_ROLE" = false := by decide
  have hmemTok : (("VAULT_TOKEN", vaultLogin) : String × String) ∈ calls := by
    rw [hperm.mem_iff]
    refine List.mem_map.2 ⟨sprintfEntry "VAULT_TOKEN" vaultLogin, mem_Setenv _ _ _, ?_⟩
    rw [entryName_sprintfEntry, entryValue_sprintfEntry _ _ (by decide)]
    rfl
  have hkeys : ∀ c ∈ calls, hasEq c.1 = false := by
    intro c hc
    rw [hperm.mem_iff] at hc
    obtain ⟨e, _, rfl⟩ := List.mem_map.1 hc
    exact hasEq_entryName e
  have hTok1 : "VAULT_TOKEN=vault:login" ∈
      (injectAll (passthroughLoop sanitizeEnvmap (passthroughEnvVars true ""))
        ⟨[], true⟩ calls).env :=
    (mem_injectAll_env _ _ _ _).2 (Or.inr ⟨_, hmemTok, htabTok, by decide⟩)
  have hRole1 := no_entry_named (passthroughLoop sanitizeEnvmap (passthroughEnvVars true ""))
    "VAULT_ROLE" ⟨[], true⟩ calls htabRole hkeys (by simp)
  unfold injectPhase
  simp only [hclient, hpass, hcol, hcalls, Bool.not_true, Bool.false_eq_true, if_false, if_true]
  by_cases hp : Getenv (Setenv env1 "VAULT_TOKEN" vaultLogin) "VAULT_ENV_FROM_PATH" = ""
  · simp only [hp, ne_eq, not_true_eq_false, if_false]
    exact ⟨_, _, rfl, hTok1, hRole1⟩
  · obtain ⟨pc, hpc, hpkeys⟩ :=
      hpath (Getenv (Setenv env1 "VAULT_TOKEN" vaultLogin) "VAULT_ENV_FROM_PATH")
    simp only [hp, ne_eq, not_false_eq_true, if_true, hpc]
    refine ⟨_, _, rfl, ?_, ?_⟩
    · exact (mem_injectAll_env _ _ _ _).2 (Or.inl hTok1)
    · apply no_entry_named _ _ _ _ _ hpkeys hRole1
      rw [injectAll_login]
      exact htabRole

/-- C4: in every well-formed starting environment with `VAULT_TOKEN=vault:login`
and an empty `VAULT_ENV_PASSTHROUGH`, when the external steps succeed and the
injector hands every collected variable unchanged to the callback (in any
order), `main` builds a sanitized environment that contains the entry
`VAULT_TOKEN=vault:login` and no entry named `VAULT_ROLE`, whether or not
`VAULT_ROLE` is set. -/
theorem login_scenario (w : World) (env : List String)
    (hwf : EnvWellFormed env)
    (htok : Getenv env "VAULT_TOKEN" = vaultLogin)
    (hpass : Getenv env "VAULT_ENV_PASSTHROUGH" = "")
    (hcmd : w.commandFound = true)
    (hfile : Getenv env "VAULT_TOKEN_FILE" = "" ∨
      (w.ReadFile (Getenv env "VAULT_TOKEN_FILE")).isSome = true)
    (hclient : w.newClientOk = true)
    (hinj : ∀ m, ∃ calls, w.InjectSecretsFromVault m = some calls ∧ calls.Perm m)
    (hpath : ∀ p, ∃ calls, w.InjectSecretsFromVaultPath p = some calls ∧
      ∀ c ∈ calls, hasEq c.1 = false) :
    ∃ s environ, mainSanitize w env = .ok (s, environ) ∧
      "VAULT_TOKEN=vault:login" ∈ s.env ∧ ∀ e ∈ s.env, entryName e ≠ "VAULT_ROLE" := by
  unfold mainSanitize
  simp only [hcmd, htok, Bool.not_true, Bool.false_eq_true, if_false, decide_True, if_true]
  by_cases hf : Getenv env "VAULT_TOKEN_FILE" = ""
  · simp only [hf, ne_eq, not_true_eq_false, if_false]
    apply injectPhase_login w _ (EnvWellFormed_Unsetenv env _ hwf) _ hclient hinj hpath
    rw [Getenv_Unsetenv_ne env _ _ (by decide)]
    exact hpass
  · have hsome : (w.ReadFile (Getenv env "VAULT_TOKEN_FILE")).isSome = true := by
      rcases hfile with h | h
      · exact absurd h hf
      · exact h
    obtain ⟨b, hb⟩ := Option.isSome_iff_exists.1 hsome
    simp only [hf, ne_eq, not_false_eq_true, if_true, hb]
    exact injectPhase_login w env hwf hpass hclient hinj hpath

/-- Witness of C4: the environment `VAULT_TOKEN=vault:login`, `VAULT_ROLE=foo`,
`HOME=/root` with an injector that passes everything on unchanged. -/
theorem login_scenario_witness :
    (EnvWellFormed ["VAULT_TOKEN=vault:login", "VAULT_ROLE=foo", "HOME=/root"] ∧
      Getenv ["VAULT_TOKEN=vault:login", "VAULT_ROLE=foo", "HOME=/root"] "VAULT_TOKEN"
        = vaultLogin ∧
      Getenv ["VAULT_TOKEN=vault:login", "VAULT_ROLE=foo", "HOME=/root"] "VAULT_ROLE"
        = "foo" ∧
      Getenv ["VAULT_TOKEN=vault:login", "VAULT_ROLE=foo", "HOME=/root"]
        "VAULT_ENV_PASSTHROUGH" = "") ∧
    ∃ s environ,
      mainSanitize plainWorld ["VAULT_TOKEN=vault:login", "VAULT_ROLE=foo", "HOME=/root"]
        = .ok (s, environ) ∧
      "VAULT_TOKEN=vault:login" ∈ s.env ∧ ∀ e ∈ s.env, entryName e ≠ "VAULT_ROLE" :=
  ⟨⟨by decide, by decide, by decide, by decide⟩,
    login_scenario plainWorld ["VAULT_TOKEN=vault:login", "VAULT_ROLE=foo", "HOME=/root"]
      (by decide) (by decide) (by decide) rfl (Or.inl (by decide)) rfl
      (fun m => ⟨m, rfl, List.Perm.refl m⟩)
      (fun _ => ⟨[], rfl, by simp⟩)⟩

/-! ## The sanitized-environment invariant -/

/-- C10 (counterexample): in login mode `VAULT_ADDR` keeps its `login = true`
rule; the environment injection appends it once and a path-based secret with
the same key appends it again, so the sanitized list built by `main` holds two
entries named `VAULT_ADDR`. -/
theorem sanitized_duplicate_governed_name :
    mainSanitize pathSecretWorld
        ["VAULT_TOKEN=vault:login", "VAULT_ADDR=https://vault:8200",
          "VAULT_ENV_FROM_PATH=secret/data/app"]
      = .ok (⟨["VAULT_ADDR=https://vault:8200", "VAULT_TOKEN=vault:login",
                "VAULT_ADDR=https://other:8200"], true⟩,
             ["VAULT_ADDR=https://vault:8200", "VAULT_ENV_FROM_PATH=secret/data/app",
                "VAULT_TOKEN=vault:login"])
    ∧ mapLookup (passthroughLoop sanitizeEnvmap (passthroughEnvVars true ""))
        "VAULT_ADDR" = some ⟨true⟩
    ∧ (["VAULT_ADDR=https://vault:8200", "VAULT_TOKEN=vault:login",
          "VAULT_ADDR=https://other:8200"].filter
            (fun e => decide (entryName e = "VAULT_ADDR"))).length = 2
    ∧ (injectAll sanitizeEnvmap ⟨[], true⟩
          [("VAULT_ADDR", "a"), ("VAULT_ADDR", "b")]).env
        = ["VAULT_ADDR=a", "VAULT_ADDR=b"] :=
  ⟨rfl, by decide, by decide, by decide⟩

/-- C10 (amended): every `append` leaves the accumulated entries as an
unchanged prefix; and for calls whose names hold no `=`, the number of entries
named `n` in the list built from the empty one is the number of calls made
with name `n` when `n` passes the classifier and zero otherwise, so a name
whose rule excludes it (rule `login = false`, or any rule outside login mode)
has no entry at all. -/
theorem sanitized_append_only_counted (table : EnvMap) (login : Bool)
    (pre post : List (String × String)) (n : String)
    (hkeys : ∀ c ∈ pre ++ post, hasEq c.1 = false) :
    (∀ (s : sanitizedEnviron) (k v : String), s.env <+: (s.append table k v).env)
    ∧ (injectAll table ⟨[], login⟩ pre).env
        <+: (injectAll table ⟨[], login⟩ (pre ++ post)).env
    ∧ ((injectAll table ⟨[], login⟩ (pre ++ post)).env.filter
          (fun e => decide (entryName e = n))).length
        = (if appendGuard table login n then
            ((pre ++ post).filter (fun c => decide (c.1 = n))).length
          else 0)
    ∧ (∀ et, mapLookup table n = some et → (login && et.login) = false →
        ∀ e ∈ (injectAll table ⟨[], login⟩ (pre ++ post)).env, entryName e ≠ n) := by
  refine ⟨?_, ?_, ?_, ?_⟩
  · intro s k v
    unfold sanitizedEnviron.append
    split
    · exact List.prefix_append _ _
    · exact List.prefix_refl _
  · rw [injectAll_append, injectAll_env table post]
    exact List.prefix_append _ _
  · rw [injectAll_env]
    simpa using count_named_entries table login n (pre ++ post) hkeys
  · intro et het hex
    apply no_entry_named table n ⟨[], login⟩ (pre ++ post) _ hkeys (by simp)
    simp [appendGuard, het, hex]

/-- Witness of C10 (amended): outside login mode, two calls for `VAULT_ADDR`
and one for `HOME`. -/
theorem sanitized_append_only_counted_witness :
    (∀ c ∈ [("VAULT_ADDR", "a"), ("HOME", "/root")] ++ [(("VAULT_ADDR", "b") : String × String)],
        hasEq c.1 = false) ∧
    ((injectAll sanitizeEnvmap ⟨[], false⟩
        ([("VAULT_ADDR", "a"), ("HOME", "/root")] ++ [("VAULT_ADDR", "b")])).env.filter
          (fun e => decide (entryName e = "VAULT_ADDR"))).length
      = (if appendGuard sanitizeEnvmap false "VAULT_ADDR" then
          (([("VAULT_ADDR", "a"), ("HOME", "/root")] ++ [("VAULT_ADDR", "b")]).filter
            (fun c => decide (c.1 = "VAULT_ADDR"))).length
        else 0) :=
  ⟨by decide,
    (sanitized_append_only_counted sanitizeEnvmap false
      [("VAULT_ADDR", "a"), ("HOME", "/root")] [("VAULT_ADDR", "b")] "VAULT_ADDR"
      (by decide)).2.2.1⟩

/-! ## The child's environment in daemon mode -/

/-- C2 (evaluation at the failing input): with `VAULT_ROLE=foo` in the
supervisor's environment and no allow-list, `VAULT_ROLE` has a `login = false`
rule and the sanitized list omits it, yet in daemon mode `cmd.Env` starts with
the supervisor's whole environment and so holds the entry `VAULT_ROLE=foo`;
the non-daemon launch passes the sanitized list alone. -/
theorem daemon_env_holds_excluded_name :
    mainLaunch plainWorld true ["VAULT_ENV_DAEMON=true", "VAULT_ROLE=foo", "HOME=/root"]
      = .ok (.daemon ["VAULT_ENV_DAEMON=true", "VAULT_ROLE=foo", "HOME=/root", "HOME=/root"])
    ∧ mapLookup (passthroughLoop sanitizeEnvmap (passthroughEnvVars false ""))
        "VAULT_ROLE" = some ⟨false⟩
    ∧ "VAULT_ROLE=foo" ∈
        ["VAULT_ENV_DAEMON=true", "VAULT_ROLE=foo", "HOME=/root", "HOME=/root"]
    ∧ entryName "VAULT_ROLE=foo" = "VAULT_ROLE"
    ∧ mainLaunch plainWorld false ["VAULT_ENV_DAEMON=true", "VAULT_ROLE=foo", "HOME=/root"]
      = .ok (.exec ["HOME=/root"])
    ∧ (∀ (environ : List String) (sanitized : sanitizedEnviron) (e : String),
        e ∈ environ → e ∈ daemonCmdEnv environ sanitized) :=
  ⟨rfl, by decide, by decide, by decide, rfl,
    fun _ _ _ he => List.mem_append_left _ he⟩

/-! ## Exit codes -/

theorem daemonExitCode_cases (N : Nat) (hN : N ≤ 255) (sig : Signal) (msg : String)
    (err : GoError) (state : Option ProcessState)
    (herr : errorsAsExitError err = none) :
    daemonExitCode none (some (.exited N)) = (N : Int)
    ∧ daemonExitCode (some (.exitError (some (.exited N)))) state = (N : Int)
    ∧ daemonExitCode (some (.wrap msg (.exitError (some (.exited N))))) state = (N : Int)
    ∧ daemonExitCode (some (.exitError (some (.signaled sig)))) state = -1
    ∧ daemonExitCode (some (.exitError none)) state = -1
    ∧ daemonExitCode (some err) state = -1 := by
  have hmod : N % 256 = N := Nat.mod_eq_of_lt (by omega)
  refine ⟨?_, ?_, ?_, ?_, ?_, ?_⟩
  · simp [daemonExitCode, ProcessState.ExitCode, hmod]
  · simp [daemonExitCode, errorsAsExitError, ProcessState.ExitCode, hmod]
  · simp [daemonExitCode, errorsAsExitError, ProcessState.ExitCode, hmod]
  · simp [daemonExitCode, errorsAsExitError, ProcessState.ExitCode]
  · simp [daemonExitCode, errorsAsExitError, ProcessState.ExitCode]
  · simp [daemonExitCode, herr]

theorem supervisorExitCode_exited_quiet (N : Nat) :
    supervisorExitCode (.exited N) [] = ((N % 256 : Nat) : Int) := by
  have hw : cmdWait (.exited N) =
      if N % 256 = 0 then (none, some (.exited N))
      else (some (.exitError (some (.exited N))), some (.exited N)) := rfl
  unfold supervisorExitCode daemonFinish
  rw [hw]
  by_cases h0 : N % 256 = 0
  · rw [if_pos h0]
    simp only [daemonExitCode, ProcessState.ExitCode]
  · rw [if_neg h0]
    simp only [daemonExitCode, errorsAsExitError, ProcessState.ExitCode]

/-- C5 (evaluation at the failing input): a child that exits with code 3 while
its SIGCHLD is delivered after `close(sigs)` leaves the supervisor with the
panic status 2, not 3; so does any end of the child followed by any late
signal. Only when no signal is delivered between `close(sigs)` and `os.Exit`
does the supervisor exit with the child's code, and with -1 for a child
terminated by a signal or a failed wait. -/
theorem exit_code_lost_after_close :
    supervisorExitCode (.exited 3) [SIGCHLD] = 2
    ∧ supervisorExitCode (.exited 3) [] = 3
    ∧ (∀ (c : ChildEnd) (sig : Signal) (rest : List Signal),
        supervisorExitCode c (sig :: rest) = 2)
    ∧ (∀ N : Nat, supervisorExitCode (.exited N) [] = ((N % 256 : Nat) : Int))
    ∧ (∀ sig : Signal, supervisorExitCode (.signaled sig) [] = -1)
    ∧ (∀ msg : String, supervisorExitCode (.waitFailed msg) [] = -1) :=
  ⟨by decide, by decide, fun _ _ _ => rfl, supervisorExitCode_exited_quiet,
    fun _ => rfl, fun _ => rfl⟩

/-! ## The lease watcher -/

theorem killTimeout_eq : killTimeout = 10000000000 := by decide

theorem renewLoop_renewals_only (secret : Secret) (renewals : List Int) :
    (renewLoop secret (renewals.map WatchEvent.renew)).2 = false ∧
    ∀ t, sendTimes t (renewLoop secret (renewals.map WatchEvent.renew)).1 = [] := by
  induction renewals with
  | nil => exact ⟨rfl, fun _ => rfl⟩
  | cons d rest ih =>
    refine ⟨ih.1, fun t => ?_⟩
    simp only [List.map_cons, renewLoop, sendTimes]
    exact ih.2 t

theorem renewLoop_until_done (secret : Secret) (renewals : List Int)
    (rest : List WatchEvent) :
    (renewLoop secret (renewals.map WatchEvent.renew ++ WatchEvent.done :: rest)).2 = true ∧
    ∀ t, sendTimes t
        (renewLoop secret (renewals.map WatchEvent.renew ++ WatchEvent.done :: rest)).1
      = sendTimes t (doneCase secret) := by
  induction renewals with
  | nil => exact ⟨rfl, fun _ => rfl⟩
  | cons d more ih =>
    refine ⟨ih.1, fun t => ?_⟩
    simp only [List.map_cons, List.cons_append, renewLoop, sendTimes]
    exact ih.2 t

theorem sendTimes_doneCase (secret : Secret) (t : Nat) :
    sendTimes t (doneCase secret) =
      [(t + termDelay secret, SIGTERM), (t + termDelay secret + 10000000000, SIGKILL)] := by
  unfold doneCase termDelay
  cases secret.Renewable
  · simp [sendTimes, killTimeout_eq, waitNanos]
  · simp [sendTimes, killTimeout_eq, waitNanos]

theorem watcherSchedule_until_done (secret : Secret) (renewals : List Int)
    (rest : List WatchEvent) (doneAt : Nat) :
    watcherSchedule secret (renewals.map WatchEvent.renew ++ WatchEvent.done :: rest) doneAt
      = [(doneAt + termDelay secret, SIGTERM),
         (doneAt + termDelay secret + 10000000000, SIGKILL)] := by
  unfold watcherSchedule
  rw [(renewLoop_until_done secret renewals rest).2, sendTimes_doneCase]

theorem leaseDuration_in_range (d : Int) (renewable : Bool)
    (h0 : 0 ≤ d) (h1 : d ≤ 9223372036) :
    leaseDuration ⟨renewable, d⟩ = d * 1000000000 := by
  unfold leaseDuration wrapInt64 Second
  simp only []
  norm_num
  omega

/-- C6 (counterexample): a lease of 9223372037 seconds fits a Go `int`, but
the product with `time.Second` wraps to a negative duration, the sleep returns
at once and SIGTERM is put on the channel at the instant of the done event. -/
theorem lease_wait_wraps_around :
    (0 : Int) ≤ 9223372037 ∧ (9223372037 : Int) < 2 ^ 63
    ∧ leaseDuration ⟨false, 9223372037⟩ = -9223372036709551616
    ∧ termDelay ⟨false, 9223372037⟩ = 0
    ∧ watcherSchedule ⟨false, 9223372037⟩ [WatchEvent.done] 0
        = [(0, SIGTERM), (10000000000, SIGKILL)] := by
  decide

/-- C6 (amended): for a non-renewable secret with a lease of `d` seconds,
`0 ≤ d ≤ 9223372036`, the computed wait is exactly `d` seconds, and the
watcher puts SIGTERM on the channel `d` seconds after the done event and at no
earlier instant. -/
theorem lease_wait_before_sigterm (d : Int) (renewals : List Int)
    (rest : List WatchEvent) (doneAt : Nat) (h0 : 0 ≤ d) (h1 : d ≤ 9223372036) :
    leaseDuration ⟨false, d⟩ = d * 1000000000
    ∧ (doneAt + d.toNat * 1000000000, SIGTERM) ∈
        watcherSchedule ⟨false, d⟩
          (renewals.map WatchEvent.renew ++ WatchEvent.done :: rest) doneAt
    ∧ ∀ p ∈ watcherSchedule ⟨false, d⟩
          (renewals.map WatchEvent.renew ++ WatchEvent.done :: rest) doneAt,
        doneAt + d.toNat * 1000000000 ≤ p.1 := by
  have hl := leaseDuration_in_range d false h0 h1
  have hd : termDelay ⟨false, d⟩ = d.toNat * 1000000000 := by
    simp only [termDelay, waitNanos, hl, Bool.false_eq_true, if_false]
    omega
  rw [watcherSchedule_until_done, hd]
  refine ⟨hl, by simp, ?_⟩
  intro p hp
  simp only [List.mem_cons, List.mem_singleton, List.not_mem_nil, or_false] at hp
  rcases hp with rfl | rfl
  · exact Nat.le_refl _
  · exact Nat.le_add_right _ _

/-- Witness of C6 (amended): a lease of 5 seconds gives a wait of 5 seconds. -/
theorem lease_wait_before_sigterm_witness :
    ((0 : Int) ≤ 5 ∧ (5 : Int) ≤ 9223372036) ∧
    leaseDuration ⟨false, 5⟩ = 5 * 1000000000 ∧
    (0 + (5 : Int).toNat * 1000000000, SIGTERM) ∈
      watcherSchedule ⟨false, 5⟩
        (([] : List Int).map WatchEvent.renew ++ WatchEvent.done :: []) 0 :=
  have h := lease_wait_before_sigterm 5 [] [] 0 (by decide) (by decide)
  ⟨⟨by decide, by decide⟩, h.1, h.2.1⟩

/-- C7 (counterexample): non-renewable secret, 5 s lease, done event at 0. The
watcher's own schedule holds SIGKILL at 15 s whatever becomes of the child;
with a child that exits at 6 s the supervisor ends there, and SIGTERM is the
only signal that reaches the channel. -/
theorem escalation_cut_by_child_exit :
    watcherSchedule ⟨false, 5⟩ [WatchEvent.done] 0
      = [(5000000000, SIGTERM), (15000000000, SIGKILL)]
    ∧ watcherSends ⟨false, 5⟩ [WatchEvent.done] 0 (some 6000000000)
      = [(5000000000, SIGTERM)]
    ∧ watcherSends ⟨false, 5⟩ [WatchEvent.done] 0 none
      = [(5000000000, SIGTERM), (15000000000, SIGKILL)] := by
  decide

/-- C7 (amended): renewal events emit no signal and leave the watcher
watching; at the done event the watcher returns, and its schedule is SIGTERM
followed after exactly 10 seconds by SIGKILL, each once, with no test of the
child. What reaches the channel is the part of that schedule before the
supervisor's exit: both signals while the child has not exited, SIGTERM alone
when the child exits within the 10 seconds. -/
theorem watcher_escalation_sequence (secret : Secret) (renewals : List Int)
    (rest : List WatchEvent) (doneAt : Nat) (childExitAt : Option Nat) :
    ((renewLoop secret (renewals.map WatchEvent.renew)).2 = false
      ∧ watcherSchedule secret (renewals.map WatchEvent.renew) doneAt = [])
    ∧ (renewLoop secret (renewals.map WatchEvent.renew ++ WatchEvent.done :: rest)).2 = true
    ∧ watcherSchedule secret (renewals.map WatchEvent.renew ++ WatchEvent.done :: rest) doneAt
        = [(doneAt + termDelay secret, SIGTERM),
           (doneAt + termDelay secret + 10000000000, SIGKILL)]
    ∧ watcherSends secret (renewals.map WatchEvent.renew ++ WatchEvent.done :: rest)
          doneAt childExitAt
        = (if supervisorRuns childExitAt (doneAt + termDelay secret) then
            (if supervisorRuns childExitAt (doneAt + termDelay secret + 10000000000) then
              [(doneAt + termDelay secret, SIGTERM),
               (doneAt + termDelay secret + 10000000000, SIGKILL)]
             else [(doneAt + termDelay secret, SIGTERM)])
           else []) := by
  refine ⟨⟨(renewLoop_renewals_only secret renewals).1,
    (renewLoop_renewals_only secret renewals).2 doneAt⟩,
    (renewLoop_until_done secret renewals rest).1,
    watcherSchedule_until_done secret renewals rest doneAt, ?_⟩
  unfold watcherSends
  rw [watcherSchedule_until_done]
  by_cases h1 : supervisorRuns childExitAt (doneAt + termDelay secret) = true
  · by_cases h2 : supervisorRuns childExitAt (doneAt + termDelay secret + 10000000000) = true
    · simp [List.takeWhile_cons, h1, h2]
    · simp [List.takeWhile_cons, h1, h2]
  · simp [List.takeWhile_cons, h1]

/-- Witness of C7 (amended): non-renewable secret, 5 s lease, two renewal
events and then the done event at 0, a child that never exits: SIGTERM at 5 s,
SIGKILL at 15 s. -/
theorem watcher_escalation_sequence_witness :
    watcherSends ⟨false, 5⟩
        ([7, 7].map WatchEvent.renew ++ WatchEvent.done :: []) 0 none
      = [(5000000000, SIGTERM), (15000000000, SIGKILL)] :=
  (watcher_escalation_sequence ⟨false, 5⟩ [7, 7] [] 0 none).2.2.2.trans (by decide)

/-! ## The signal relay -/

/-- C8 (evaluation): once `cmd.ProcessState` shows a child that exited by
itself, the relay forwards neither the signal at hand nor any later one; but
for a child terminated by a signal `Exited()` is false, and the relay passes
the signal to `cmd.Process.Signal` and goes on with the loop. -/
theorem relay_after_observed_exit :
    (∀ (sig : Signal) (status : Nat) (rest : List (Signal × Option ProcessState)),
      relayLoop ((sig, some (.exited status)) :: rest) = [])
    ∧ (∀ (sig killer : Signal) (rest : List (Signal × Option ProcessState)),
      relayLoop ((sig, some (.signaled killer)) :: rest) = sig :: relayLoop rest)
    ∧ (∀ (sig : Signal) (rest : List (Signal × Option ProcessState)),
      relayLoop ((sig, none) :: rest) = sig :: relayLoop rest)
    ∧ relayLoop [(SIGTERM, some (.signaled SIGKILL)), (SIGTERM, some (.signaled SIGKILL))]
        = [SIGTERM, SIGTERM] :=
  ⟨fun _ _ _ => rfl, fun _ _ _ => rfl, fun _ _ => rfl, rfl⟩

end VaultEnv
